import Mathlib

/-
Verification development for the inventory ledger engine
(src/inventory/services/stock.py, src/inventory/serializers.py,
src/inventory/views.py).  Quantities are Django DecimalFields; all ledger
arithmetic on them is exact addition/subtraction, embedded here as ℚ.
Products and locations are embedded by their database ids (Nat); an
optional foreign key becomes Option Nat.  Database state is embedded as a
LedgerState: the InventoryLevel table becomes a total function
(product, location) ↦ on_hand with default 0 (rows are created lazily at
zero by _get_level_for_update, so an absent row and a zero row are
observationally equal); the StockMove and StockMoveBatch tables become
lists of records.  A Django @transaction.atomic function that can raise
StockError becomes a function into Except String: the .error result
carries the exception message and, by atomicity, leaves the state
untouched (no state is returned on error).
-/

set_option maxRecDepth 8000

attribute [local semireducible] Rat.sub Rat.add Rat.mul Rat.inv Rat.ofScientific

inductive MoveType where
  | INBOUND
  | OUTBOUND
  | TRANSFER
deriving DecidableEq, Repr

/-- models.StockMove: one ledger row (timestamp embedded as Int). -/
structure StockMove where
  type : MoveType
  product : Nat
  qty : ℚ
  from_location : Option Nat
  to_location : Option Nat
  timestamp : Int
deriving DecidableEq, Repr

/-- models.StockMoveLine: a (product, qty) pair under a batch. -/
structure BatchLine where
  product : Nat
  qty : ℚ
deriving DecidableEq, Repr

/-- models.StockMoveBatch with its related lines (batch.lines). -/
structure StockMoveBatch where
  type : MoveType
  from_location : Option Nat
  to_location : Option Nat
  timestamp : Int
  lines : List BatchLine
deriving DecidableEq, Repr

/-- The mutable database state the stock services act on. -/
structure LedgerState where
  levels : Nat → Nat → ℚ
  moves : List StockMove
  batches : List StockMoveBatch

def emptyState : LedgerState :=
  { levels := fun _ _ => 0, moves := [], batches := [] }

/-- Point update of the InventoryLevel table at one (product, location) row. -/
def updateLevel (lv : Nat → Nat → ℚ) (p l : Nat) (v : ℚ) : Nat → Nat → ℚ :=
  fun p2 l2 => if p2 = p ∧ l2 = l then v else lv p2 l2

/-- Deletion of one row by value (move.delete / batch.delete erase exactly
the one record handed to the reversal function). -/
def removeFirst {α : Type} [DecidableEq α] (x : α) : List α → List α
  | [] => []
  | y :: rest => if y = x then rest else y :: removeFirst x rest

/-- services/stock.py apply_stock_move (lines 20-71).  The qty-is-None case
is unrepresentable here since qty : ℚ.  Each `F("on_hand") ± qty` save is a
database-side delta relative to the current row value, which in this
sequential embedding is the current function value. -/
def apply_stock_move (ty : MoveType) (product : Nat) (qty : ℚ)
    (fromL toL : Option Nat) (timestamp : Int) (s : LedgerState) :
    Except String (StockMove × LedgerState) :=
  if qty ≤ 0 then .error "Quantity must be positive."
  else
    match ty with
    | .INBOUND =>
      match toL with
      | none => .error "INBOUND moves require a destination (to_location)."
      | some dst =>
        let lv := updateLevel s.levels product dst (s.levels product dst + qty)
        let mv : StockMove := ⟨.INBOUND, product, qty, fromL, toL, timestamp⟩
        .ok (mv, { s with levels := lv, moves := mv :: s.moves })
    | .OUTBOUND =>
      match fromL with
      | none => .error "OUTBOUND moves require a source (from_location)."
      | some src =>
        if s.levels product src < qty then
          .error "Insufficient stock at source location."
        else
          let lv := updateLevel s.levels product src (s.levels product src - qty)
          let mv : StockMove := ⟨.OUTBOUND, product, qty, fromL, toL, timestamp⟩
          .ok (mv, { s with levels := lv, moves := mv :: s.moves })
    | .TRANSFER =>
      match fromL, toL with
      | some src, some dst =>
        if src = dst then .error "Source and destination locations must differ."
        else if s.levels product src < qty then
          .error "Insufficient stock at source location for transfer."
        else
          let lv1 := updateLevel s.levels product src (s.levels product src - qty)
          let lv2 := updateLevel lv1 product dst (lv1 product dst + qty)
          let mv : StockMove := ⟨.TRANSFER, product, qty, fromL, toL, timestamp⟩
          .ok (mv, { s with levels := lv2, moves := mv :: s.moves })
      | _, _ => .error "TRANSFER moves require both source and destination."

/-- services/stock.py reverse_stock_move (lines 74-120). -/
def reverse_stock_move (mv : StockMove) (s : LedgerState) :
    Except String LedgerState :=
  match mv.type with
  | .INBOUND =>
    match mv.to_location with
    | none => .error "Cannot reverse: missing destination."
    | some dst =>
      if s.levels mv.product dst < mv.qty then
        .error "Cannot reverse: would go negative at destination."
      else
        .ok { s with
              levels := updateLevel s.levels mv.product dst
                          (s.levels mv.product dst - mv.qty),
              moves := removeFirst mv s.moves }
  | .OUTBOUND =>
    match mv.from_location with
    | none => .error "Cannot reverse: missing source."
    | some src =>
      .ok { s with
            levels := updateLevel s.levels mv.product src
                        (s.levels mv.product src + mv.qty),
            moves := removeFirst mv s.moves }
  | .TRANSFER =>
    match mv.from_location, mv.to_location with
    | some src, some dst =>
      if s.levels mv.product dst < mv.qty then
        .error "Cannot reverse: insufficient stock at destination."
      else
        let lv1 := updateLevel s.levels mv.product dst
                     (s.levels mv.product dst - mv.qty)
        let lv2 := updateLevel lv1 mv.product src (lv1 mv.product src + mv.qty)
        .ok { s with levels := lv2, moves := removeFirst mv s.moves }
    | _, _ => .error "Cannot reverse: missing locations."

/-- One step of the totals defaultdict in _group_lines_by_product:
`totals[pid] = totals[pid] + qty`, keyed association list in insertion
order (Python dicts iterate in insertion order). -/
def addLine (acc : List (Nat × ℚ)) (pid : Nat) (q : ℚ) : List (Nat × ℚ) :=
  match acc with
  | [] => [(pid, q)]
  | (p, t) :: rest =>
    if p = pid then (p, t + q) :: rest else (p, t) :: addLine rest pid q

/-- The loop body of _group_lines_by_product: check each line qty, then add. -/
def groupLines : List BatchLine → List (Nat × ℚ) →
    Except String (List (Nat × ℚ))
  | [], acc => .ok acc
  | ln :: rest, acc =>
    if ln.qty ≤ 0 then .error "Line quantity must be positive."
    else groupLines rest (addLine acc ln.product ln.qty)

/-- services/stock.py _group_lines_by_product (lines 123-131). -/
def group_lines_by_product (lines : List BatchLine) :
    Except String (List (Nat × ℚ)) :=
  groupLines lines []

/-- The feasibility loop of apply_stock_batch_move (lines 176-179): first
consolidated product whose source balance is below its total raises. -/
def checkFeasible (totals : List (Nat × ℚ)) (lv : Nat → Nat → ℚ) (src : Nat) :
    Except String Unit :=
  match totals with
  | [] => .ok ()
  | (pid, q) :: rest =>
    if lv pid src < q then
      .error ("Insufficient stock at source for product id=" ++ toString pid ++ ".")
    else checkFeasible rest lv src

/-- The INBOUND apply loop (lines 182-186): add each consolidated qty at
(pid, dst). -/
def applyTotalsAdd : List (Nat × ℚ) → (Nat → Nat → ℚ) → Nat → (Nat → Nat → ℚ)
  | [], lv, _ => lv
  | (pid, q) :: rest, lv, dst =>
    applyTotalsAdd rest (updateLevel lv pid dst (lv pid dst + q)) dst

/-- The OUTBOUND apply loop (lines 187-191): subtract each consolidated qty
at (pid, src). -/
def applyTotalsSub : List (Nat × ℚ) → (Nat → Nat → ℚ) → Nat → (Nat → Nat → ℚ)
  | [], lv, _ => lv
  | (pid, q) :: rest, lv, src =>
    applyTotalsSub rest (updateLevel lv pid src (lv pid src - q)) src

/-- The TRANSFER apply loop (lines 192-199): per consolidated product,
subtract at (pid, src) then add at (pid, dst). -/
def applyTotalsTransfer :
    List (Nat × ℚ) → (Nat → Nat → ℚ) → Nat → Nat → (Nat → Nat → ℚ)
  | [], lv, _, _ => lv
  | (pid, q) :: rest, lv, src, dst =>
    let lv1 := updateLevel lv pid src (lv pid src - q)
    let lv2 := updateLevel lv1 pid dst (lv1 pid dst + q)
    applyTotalsTransfer rest lv2 src dst

/-- services/stock.py apply_stock_batch_move (lines 134-209).  The source's
sequential guard clauses are expressed by casing on the type first; the
order error-checks fire in (endpoints, same-location, empty lines, line
positivity, feasibility) is preserved.  The `type not in (...)` guard is
unrepresentable since MoveType has exactly the three kinds.  The persisted
lines are one per consolidated product (totals.items()). -/
def apply_stock_batch_move (ty : MoveType) (fromL toL : Option Nat)
    (timestamp : Int) (lines : List BatchLine) (s : LedgerState) :
    Except String (StockMoveBatch × LedgerState) :=
  match ty with
  | .INBOUND =>
    match toL with
    | none => .error "INBOUND requires a destination (to_location)."
    | some dst =>
      if lines = [] then .error "At least one line is required."
      else
        match group_lines_by_product lines with
        | .error e => .error e
        | .ok totals =>
          let lv := applyTotalsAdd totals s.levels dst
          let batch : StockMoveBatch :=
            ⟨.INBOUND, fromL, toL, timestamp, totals.map fun e => ⟨e.1, e.2⟩⟩
          .ok (batch, { s with levels := lv, batches := batch :: s.batches })
  | .OUTBOUND =>
    match fromL with
    | none => .error "OUTBOUND requires a source (from_location)."
    | some src =>
      if lines = [] then .error "At least one line is required."
      else
        match group_lines_by_product lines with
        | .error e => .error e
        | .ok totals =>
          match checkFeasible totals s.levels src with
          | .error e => .error e
          | .ok _ =>
            let lv := applyTotalsSub totals s.levels src
            let batch : StockMoveBatch :=
              ⟨.OUTBOUND, fromL, toL, timestamp, totals.map fun e => ⟨e.1, e.2⟩⟩
            .ok (batch, { s with levels := lv, batches := batch :: s.batches })
  | .TRANSFER =>
    match fromL, toL with
    | some src, some dst =>
      if src = dst then .error "Source and destination locations must differ."
      else if lines = [] then .error "At least one line is required."
      else
        match group_lines_by_product lines with
        | .error e => .error e
        | .ok totals =>
          match checkFeasible totals s.levels src with
          | .error e => .error e
          | .ok _ =>
            let lv := applyTotalsTransfer totals s.levels src dst
            let batch : StockMoveBatch :=
              ⟨.TRANSFER, fromL, toL, timestamp, totals.map fun e => ⟨e.1, e.2⟩⟩
            .ok (batch, { s with levels := lv, batches := batch :: s.batches })
    | _, _ => .error "TRANSFER requires both source and destination."

/-- The totals loop of reverse_stock_batch_move (lines 219-221): same
defaultdict consolidation but with no positivity check. -/
def groupBatchLines : List BatchLine → List (Nat × ℚ) → List (Nat × ℚ)
  | [], acc => acc
  | ln :: rest, acc => groupBatchLines rest (addLine acc ln.product ln.qty)

/-- The reversal check loops (lines 232-236 and 259-263): every
consolidated qty is checked against the balance at (p0, loc), where p0 is
the product whose level row was acquired.  The refresh_from_db in the loop
re-reads the same unmutated row each time, hence the fixed lv. -/
def checkReverseAt (totals : List (Nat × ℚ)) (lv : Nat → Nat → ℚ)
    (p0 loc : Nat) (msg : String) : Except String Unit :=
  match totals with
  | [] => .ok ()
  | (_, q) :: rest =>
    if lv p0 loc < q then .error msg else checkReverseAt rest lv p0 loc msg

/-- The reversal subtract loop (INBOUND lines 238-241, and the dst half of
TRANSFER): subtract every consolidated qty at the single row (p0, loc). -/
def revSubAll : List (Nat × ℚ) → (Nat → Nat → ℚ) → Nat → Nat → (Nat → Nat → ℚ)
  | [], lv, _, _ => lv
  | (_, q) :: rest, lv, p0, loc =>
    revSubAll rest (updateLevel lv p0 loc (lv p0 loc - q)) p0 loc

/-- The reversal add loop (OUTBOUND lines 247-250, and the src half of
TRANSFER): add every consolidated qty at the single row (p0, loc). -/
def revAddAll : List (Nat × ℚ) → (Nat → Nat → ℚ) → Nat → Nat → (Nat → Nat → ℚ)
  | [], lv, _, _ => lv
  | (_, q) :: rest, lv, p0, loc =>
    revAddAll rest (updateLevel lv p0 loc (lv p0 loc + q)) p0 loc

/-- The TRANSFER reversal apply loop (lines 266-272): per consolidated
entry, subtract at (p0, dst) then add at (p0, src). -/
def revTransferAll :
    List (Nat × ℚ) → (Nat → Nat → ℚ) → Nat → Nat → Nat → (Nat → Nat → ℚ)
  | [], lv, _, _, _ => lv
  | (_, q) :: rest, lv, p0, src, dst =>
    let lv1 := updateLevel lv p0 dst (lv p0 dst - q)
    let lv2 := updateLevel lv1 p0 src (lv1 p0 src + q)
    revTransferAll rest lv2 p0 src dst

/-- services/stock.py reverse_stock_batch_move (lines 212-274).  The level
row for every consolidated product id is acquired through
`ln.product if (ln := lines[0]) else Product.objects.get(id=pid)`; a model
instance is always truthy, so the conditional expression always yields the
FIRST line's product, and every check and delta lands on the single row
(lines[0].product, location).  A missing batch location would make
get_or_create violate the NOT NULL constraint on InventoryLevel.location,
aborting the transaction, embedded as an error. -/
def reverse_stock_batch_move (batch : StockMoveBatch) (s : LedgerState) :
    Except String LedgerState :=
  match batch.lines with
  | [] => .ok { s with batches := removeFirst batch s.batches }
  | ln0 :: restLines =>
    let totals := groupBatchLines (ln0 :: restLines) []
    let p0 := ln0.product
    match batch.type with
    | .INBOUND =>
      match batch.to_location with
      | none => .error "IntegrityError: inventory level requires a location."
      | some dst =>
        match checkReverseAt totals s.levels p0 dst
            "Cannot reverse: would go negative at destination." with
        | .error e => .error e
        | .ok _ =>
          .ok { s with
                levels := revSubAll totals s.levels p0 dst,
                batches := removeFirst batch s.batches }
    | .OUTBOUND =>
      match batch.from_location with
      | none => .error "IntegrityError: inventory level requires a location."
      | some src =>
        .ok { s with
              levels := revAddAll totals s.levels p0 src,
              batches := removeFirst batch s.batches }
    | .TRANSFER =>
      match batch.from_location, batch.to_location with
      | some src, some dst =>
        match checkReverseAt totals s.levels p0 dst
            "Cannot reverse: insufficient stock at destination." with
        | .error e => .error e
        | .ok _ =>
          .ok { s with
                levels := revTransferAll totals s.levels p0 src dst,
                batches := removeFirst batch s.batches }
      | _, _ => .error "IntegrityError: inventory level requires a location."

/-- serializers.py StockMoveSerializer.validate (lines 45-64): shape checks
run by the API layer before apply_stock_move.  qty arrives as an optional
field (`attrs.get("qty")`), hence Option ℚ. -/
def stockMoveSerializerValidate (t : MoveType) (fromL toL : Option Nat)
    (qty : Option ℚ) : Except String Unit :=
  match qty with
  | none => .error "Quantity must be positive."
  | some q =>
    if q ≤ 0 then .error "Quantity must be positive."
    else
      match t with
      | .INBOUND =>
        if toL = none then .error "INBOUND requires a destination." else .ok ()
      | .OUTBOUND =>
        if fromL = none then .error "OUTBOUND requires a source." else .ok ()
      | .TRANSFER =>
        match fromL, toL with
        | some f, some d =>
          if f = d then .error "Source and destination must differ." else .ok ()
        | _, _ => .error "TRANSFER requires both source and destination."

/-- Floor of a rational as an integer (num and den of a Rat are coprime
with positive den, so floor division of num by den is the floor). -/
def ratFloor (x : ℚ) : ℤ := Int.fdiv x.num (x.den : ℤ)

/-- Round a rational to the nearest integer, ties to even: the rounding of
Python Decimal.quantize under the default context (ROUND_HALF_EVEN). -/
def roundHalfEven (x : ℚ) : ℤ :=
  let n := ratFloor x
  let r := x - (n : ℚ)
  if r < 1 / 2 then n
  else if 1 / 2 < r then n + 1
  else if n % 2 = 0 then n else n + 1

/-- `.quantize(Decimal("0.01"))`: round to two decimal places, half-even. -/
def round2 (x : ℚ) : ℚ := (roundHalfEven (x * 100) : ℚ) / 100

/-- One emitted row of ReorderSuggestionView (views.py lines 207-216);
sku/name display strings omitted. -/
structure SuggestionRow where
  product : Nat
  avg_daily_demand : ℚ
  on_hand_total : ℚ
  suggested_qty : ℚ
  window_days : Int
  coverage_days : Int
deriving DecidableEq, Repr

/-- The per-product body of ReorderSuggestionView.get (views.py lines
195-216): clamp non-positive days to 1, quantize the average, quantize the
target, subtract on-hand, filter by min_qty and strict positivity, and
quantize on_hand and suggested for display. -/
def reorderSuggestionRow (pid : Nat) (total_out on_hand : ℚ)
    (days coverage_days : Int) (min_qty : ℚ) : Option SuggestionRow :=
  let days := if days ≤ 0 then 1 else days
  let avg_daily := round2 (total_out / (days : ℚ))
  let target := round2 (avg_daily * (coverage_days : ℚ))
  let suggested := target - on_hand
  if suggested < min_qty then none
  else if suggested ≤ 0 then none
  else
    some { product := pid
           avg_daily_demand := avg_daily
           on_hand_total := round2 on_hand
           suggested_qty := round2 suggested
           window_days := days
           coverage_days := coverage_days }

/-- Summed qty of the lines of one product: the value a per-product Sum
annotation yields over a list of (product, qty) rows. -/
def sumQtyFor (x : Nat) : List BatchLine → ℚ
  | [] => 0
  | ln :: rest => (if ln.product = x then ln.qty else 0) + sumQtyFor x rest

/-- The single-move half of the outbound window query (views.py lines
171-174): OUTBOUND moves of this product with timestamp ≥ start. -/
def outboundSingleTotal (pr : Nat) (start : Int) : List StockMove → ℚ
  | [] => 0
  | m :: rest =>
    (if m.type = .OUTBOUND ∧ m.product = pr ∧ start ≤ m.timestamp
     then m.qty else 0) + outboundSingleTotal pr start rest

/-- The batch-line half of the outbound window query (views.py lines
177-180): lines of OUTBOUND batches with batch timestamp ≥ start. -/
def outboundBatchTotal (pr : Nat) (start : Int) : List StockMoveBatch → ℚ
  | [] => 0
  | b :: rest =>
    (if b.type = .OUTBOUND ∧ start ≤ b.timestamp
     then sumQtyFor pr b.lines else 0) + outboundBatchTotal pr start rest

/-- The merged totals defaultdict (views.py lines 182-186). -/
def outbound_total (pr : Nat) (start : Int) (moves : List StockMove)
    (batches : List StockMoveBatch) : ℚ :=
  outboundSingleTotal pr start moves + outboundBatchTotal pr start batches

/-- Read a level out of an operation result (0 on error, where no state
exists; used only to state concrete evaluations). -/
def finalLevels (r : Except String LedgerState) (p l : Nat) : ℚ :=
  match r with
  | .ok s => s.levels p l
  | .error _ => 0

/-- Lines of the batch created by a batch apply ([] on error). -/
def batchLinesOf (r : Except String (StockMoveBatch × LedgerState)) :
    List BatchLine :=
  match r with
  | .ok (b, _) => b.lines
  | .error _ => []

/-- DELETE-after-POST composition for a single move: apply, then reverse
the returned MovementEvent on the post-application state. -/
def applyThenReverseSingle (ty : MoveType) (product : Nat) (qty : ℚ)
    (fromL toL : Option Nat) (timestamp : Int) (s : LedgerState) :
    Except String LedgerState :=
  match apply_stock_move ty product qty fromL toL timestamp s with
  | .error e => .error e
  | .ok (mv, s1) => reverse_stock_move mv s1

/-- DELETE-after-POST composition for a batch: apply, then reverse the
returned BatchEvent on the post-application state. -/
def applyThenReverseBatch (ty : MoveType) (fromL toL : Option Nat)
    (timestamp : Int) (lines : List BatchLine) (s : LedgerState) :
    Except String LedgerState :=
  match apply_stock_batch_move ty fromL toL timestamp lines s with
  | .error e => .error e
  | .ok (b, s1) => reverse_stock_batch_move b s1

/-- One ledger-mutating request (no reversals), as issued through the API. -/
inductive Op where
  | single (ty : MoveType) (product : Nat) (qty : ℚ)
      (fromL toL : Option Nat) (timestamp : Int)
  | batch (ty : MoveType) (fromL toL : Option Nat) (timestamp : Int)
      (lines : List BatchLine)
deriving DecidableEq, Repr

def runOp (op : Op) (s : LedgerState) : Except String LedgerState :=
  match op with
  | .single ty p q fl tl ts =>
    match apply_stock_move ty p q fl tl ts s with
    | .error e => .error e
    | .ok (_, s1) => .ok s1
  | .batch ty fl tl ts lines =>
    match apply_stock_batch_move ty fl tl ts lines s with
    | .error e => .error e
    | .ok (_, s1) => .ok s1

/-- A sequence of requests, each of which must succeed. -/
def runOps : List Op → LedgerState → Except String LedgerState
  | [], s => .ok s
  | op :: rest, s =>
    match runOp op s with
    | .error e => .error e
    | .ok s1 => runOps rest s1

/-- The locations an operation touches. -/
def opLocs : Op → List Nat
  | .single _ _ _ fl tl _ => fl.toList ++ tl.toList
  | .batch _ fl tl _ _ => fl.toList ++ tl.toList

/-- INBOUND quantity an operation requests for one product. -/
def opInboundQty (pr : Nat) : Op → ℚ
  | .single ty p q _ _ _ => if ty = .INBOUND ∧ p = pr then q else 0
  | .batch ty _ _ _ lines => if ty = .INBOUND then sumQtyFor pr lines else 0

/-- OUTBOUND quantity an operation requests for one product. -/
def opOutboundQty (pr : Nat) : Op → ℚ
  | .single ty p q _ _ _ => if ty = .OUTBOUND ∧ p = pr then q else 0
  | .batch ty _ _ _ lines => if ty = .OUTBOUND then sumQtyFor pr lines else 0

/-- Total INBOUND quantity a request sequence applies for one product. -/
def inboundTotal (pr : Nat) : List Op → ℚ
  | [] => 0
  | op :: rest => opInboundQty pr op + inboundTotal pr rest

/-- Total OUTBOUND quantity a request sequence applies for one product. -/
def outboundTotal (pr : Nat) : List Op → ℚ
  | [] => 0
  | op :: rest => opOutboundQty pr op + outboundTotal pr rest

/-- Per-key total of a consolidated association list. -/
def pairSum (x : Nat) : List (Nat × ℚ) → ℚ
  | [] => 0
  | e :: rest => (if e.1 = x then e.2 else 0) + pairSum x rest

/-- Whether an operation succeeded (the HTTP layer's 2xx vs 400 split). -/
def isOkE {ε α : Type} : Except ε α → Bool
  | .ok _ => true
  | .error _ => false

/-- Level read out of a single-move apply result (0 on error). -/
def resultLevels (r : Except String (StockMove × LedgerState)) (p l : Nat) : ℚ :=
  match r with
  | .ok (_, s) => s.levels p l
  | .error _ => 0

/-- Level read out of a batch apply result (0 on error). -/
def batchResultLevels (r : Except String (StockMoveBatch × LedgerState))
    (p l : Nat) : ℚ :=
  match r with
  | .ok (_, s) => s.levels p l
  | .error _ => 0

/-- A ledger holding 5 units of product 1 at location 0 (the SKU1/MAIN
scenario state). -/
def demoFive : LedgerState :=
  { levels := fun p l => if p = 1 ∧ l = 0 then 5 else 0
    moves := []
    batches := [] }

/-- 10 of product 1 and 5 of product 2 at location 0. -/
def demoTwoProducts : LedgerState :=
  { levels := fun p l =>
      if p = 1 ∧ l = 0 then 10 else if p = 2 ∧ l = 0 then 5 else 0
    moves := []
    batches := [] }

/-- One feasible and one infeasible line against demoTwoProducts. -/
def demoInfeasibleLines : List BatchLine := [⟨1, 5⟩, ⟨2, 1000⟩]

/-- Two lines for the same product, quantities 3 and 4. -/
def demoDupLines : List BatchLine := [⟨1, 3⟩, ⟨1, 4⟩]

/-- Two lines for two distinct products, quantities 5 and 3. -/
def demoBugLines : List BatchLine := [⟨1, 5⟩, ⟨2, 3⟩]

/-- INBOUND batch of demoBugLines into location 0, from the empty ledger. -/
def demoBugApplied : Except String (StockMoveBatch × LedgerState) :=
  apply_stock_batch_move .INBOUND none (some 0) 0 demoBugLines emptyState

/-- ... and then immediately reversed. -/
def demoBugReversed : Except String LedgerState :=
  applyThenReverseBatch .INBOUND none (some 0) 0 demoBugLines emptyState

def demoInboundMove : StockMove := ⟨.INBOUND, 1, 5, none, some 0, 0⟩

def demoTransferMove : StockMove := ⟨.TRANSFER, 1, 5, some 0, some 1, 0⟩

def demoOutboundMove : StockMove := ⟨.OUTBOUND, 1, 4, some 0, none, 0⟩

/-- INBOUND 5 into location 0, TRANSFER 2 to location 1, OUTBOUND 2 from
location 1, all of product 1. -/
def demoOps : List Op :=
  [.single .INBOUND 1 5 none (some 0) 0,
   .batch .TRANSFER (some 0) (some 1) 0 [⟨1, 2⟩],
   .single .OUTBOUND 1 2 (some 1) none 0]

/-- Moves for the advisor scenario: 90 outbound in the window, 30 outbound
before the window, one inbound (ignored by the outbound query). -/
def demoAdvisorMoves : List StockMove :=
  [⟨.OUTBOUND, 1, 90, some 0, none, 10⟩,
   ⟨.OUTBOUND, 1, 30, some 0, none, -5⟩,
   ⟨.INBOUND, 1, 99, none, some 0, 12⟩]

/-- Batches for the advisor scenario: an outbound batch in the window with
50 of product 1 (and a line of another product), and an inbound batch. -/
def demoAdvisorBatches : List StockMoveBatch :=
  [⟨.OUTBOUND, some 0, none, 3, [⟨1, 50⟩, ⟨2, 7⟩]⟩,
   ⟨.INBOUND, none, some 0, 5, [⟨1, 11⟩]⟩]

/-- The advisor row for the 140-over-14-days, coverage-7, on-hand-10
scenario. -/
def demoRow : SuggestionRow := ⟨1, 10, 10, 60, 14, 7⟩

theorem updateLevel_self (lv : Nat → Nat → ℚ) (p l : Nat) (v : ℚ) :
    updateLevel lv p l v p l = v := by
  simp [updateLevel]

theorem updateLevel_other (lv : Nat → Nat → ℚ) (p l : Nat) (v : ℚ)
    (p2 l2 : Nat) (h : ¬(p2 = p ∧ l2 = l)) :
    updateLevel lv p l v p2 l2 = lv p2 l2 := by
  simp only [updateLevel]
  rw [if_neg h]

theorem removeFirst_cons_self {α : Type} [DecidableEq α] (x : α) (l : List α) :
    removeFirst x (x :: l) = l := by
  simp [removeFirst]

/-- C7: a single OUTBOUND of quantity q from a source balance with
on_hand < q fails with the insufficient-stock error (the aborted
transaction leaves every balance as it was); with on_hand ≥ q it succeeds
and the source balance decreases by exactly q while every other balance is
untouched. -/
theorem outbound_insufficient_or_exact (s : LedgerState) (p src : Nat) (q : ℚ)
    (toL : Option Nat) (ts : Int) (hq : 0 < q) :
    (s.levels p src < q →
      apply_stock_move .OUTBOUND p q (some src) toL ts s =
        .error "Insufficient stock at source location.") ∧
    (q ≤ s.levels p src →
      apply_stock_move .OUTBOUND p q (some src) toL ts s =
        .ok (⟨.OUTBOUND, p, q, some src, toL, ts⟩,
          { s with
            levels := updateLevel s.levels p src (s.levels p src - q)
            moves := ⟨.OUTBOUND, p, q, some src, toL, ts⟩ :: s.moves }) ∧
      updateLevel s.levels p src (s.levels p src - q) p src =
        s.levels p src - q ∧
      ∀ p2 l2, ¬(p2 = p ∧ l2 = src) →
        updateLevel s.levels p src (s.levels p src - q) p2 l2 =
          s.levels p2 l2) := by
  constructor
  · intro hlt
    simp [apply_stock_move, hq.not_le, hlt]
  · intro hge
    refine ⟨?_, updateLevel_self _ _ _ _, fun p2 l2 h => updateLevel_other _ _ _ _ _ _ h⟩
    simp [apply_stock_move, hq.not_le, not_lt.mpr hge]

/-- Witness for C7 at the spec scenario: on_hand(SKU1, MAIN) = 5, OUTBOUND
6 fails with InsufficientStock; OUTBOUND 4 succeeds leaving 1. -/
theorem outbound_insufficient_or_exact_witness :
    ((0:ℚ) < 6 ∧ demoFive.levels 1 0 < 6 ∧
      apply_stock_move .OUTBOUND 1 6 (some 0) none 0 demoFive =
        .error "Insufficient stock at source location.") ∧
    ((0:ℚ) < 4 ∧ (4:ℚ) ≤ demoFive.levels 1 0 ∧
      resultLevels (apply_stock_move .OUTBOUND 1 4 (some 0) none 0 demoFive)
        1 0 = 1) := by
  constructor
  · exact ⟨by norm_num, by decide,
      (outbound_insufficient_or_exact demoFive 1 0 6 none 0 (by norm_num)).1
        (by decide)⟩
  · refine ⟨by norm_num, by decide, ?_⟩
    have h := (outbound_insufficient_or_exact demoFive 1 0 4 none 0
      (by norm_num)).2 (by decide)
    rw [h.1]
    simp only [resultLevels]
    decide

/-- C8 counterexample: an INBOUND request carrying a source location (and
an OUTBOUND request carrying a destination) is accepted — not rejected —
by both the serializer validation and apply_stock_move; the INBOUND one
even mutates the destination balance, so the claimed rejection of the
forbidden endpoint does not exist in the code. -/
theorem extraneous_endpoint_accepted :
    isOkE (stockMoveSerializerValidate .INBOUND (some 0) (some 1) (some 1))
      = true ∧
    isOkE (apply_stock_move .INBOUND 1 1 (some 0) (some 1) 0 emptyState)
      = true ∧
    resultLevels (apply_stock_move .INBOUND 1 1 (some 0) (some 1) 0 emptyState)
      1 1 = 1 ∧
    isOkE (stockMoveSerializerValidate .OUTBOUND (some 0) (some 1) (some 1))
      = true ∧
    isOkE (apply_stock_move .OUTBOUND 1 1 (some 0) (some 1) 0 demoFive)
      = true := by
  refine ⟨by decide, by decide, by decide, by decide, by decide⟩

/-- C8 (amended): single-movement validation enforces the required
endpoint for each kind before any balance is touched — INBOUND without a
destination and OUTBOUND without a source are rejected by both the
serializer and the service, with no effect (the error return carries no
state) — but the presence of an extraneous endpoint is not checked. -/
theorem required_endpoint_enforced (p : Nat) (q : ℚ) (fromL toL : Option Nat)
    (ts : Int) (s : LedgerState) (hq : 0 < q) :
    (toL = none →
      apply_stock_move .INBOUND p q fromL toL ts s =
        .error "INBOUND moves require a destination (to_location)." ∧
      stockMoveSerializerValidate .INBOUND fromL toL (some q) =
        .error "INBOUND requires a destination.") ∧
    (fromL = none →
      apply_stock_move .OUTBOUND p q fromL toL ts s =
        .error "OUTBOUND moves require a source (from_location)." ∧
      stockMoveSerializerValidate .OUTBOUND fromL toL (some q) =
        .error "OUTBOUND requires a source.") := by
  constructor
  · rintro rfl
    exact ⟨by simp [apply_stock_move, hq.not_le],
      by simp [stockMoveSerializerValidate, hq.not_le]⟩
  · rintro rfl
    exact ⟨by simp [apply_stock_move, hq.not_le],
      by simp [stockMoveSerializerValidate, hq.not_le]⟩

/-- Witness for C8 (amended) at a concrete missing-endpoint request. -/
theorem required_endpoint_enforced_witness :
    apply_stock_move .INBOUND 1 2 (some 0) none 0 emptyState =
      .error "INBOUND moves require a destination (to_location)." ∧
    apply_stock_move .OUTBOUND 1 2 none (some 0) 0 emptyState =
      .error "OUTBOUND moves require a source (from_location)." := by
  exact ⟨((required_endpoint_enforced 1 2 (some 0) none 0 emptyState
      (by norm_num)).1 rfl).1,
    ((required_endpoint_enforced 1 2 none (some 0) 0 emptyState
      (by norm_num)).2 rfl).1⟩

/-- C10: reversing an OUTBOUND MovementEvent that has a source performs no
feasibility check: for every state it unconditionally succeeds, adds the
quantity back to the source balance, and deletes the event — while
INBOUND and TRANSFER reversals check the affected destination balance and
can fail (shown failing on the empty ledger). -/
theorem outbound_reversal_unchecked (s : LedgerState) (mv : StockMove)
    (src : Nat) (ht : mv.type = .OUTBOUND)
    (hf : mv.from_location = some src) :
    reverse_stock_move mv s =
      .ok { s with
            levels := updateLevel s.levels mv.product src
                        (s.levels mv.product src + mv.qty)
            moves := removeFirst mv s.moves } ∧
    isOkE (reverse_stock_move demoInboundMove emptyState) = false ∧
    isOkE (reverse_stock_move demoTransferMove emptyState) = false := by
  refine ⟨?_, by decide, by decide⟩
  simp [reverse_stock_move, ht, hf]

/-- Witness for C10: reversing OUTBOUND 4 of product 1 from location 0 on
the 5-on-hand ledger restores the balance to 9 without any check. -/
theorem outbound_reversal_unchecked_witness :
    demoOutboundMove.type = .OUTBOUND ∧
    demoOutboundMove.from_location = some 0 ∧
    finalLevels (reverse_stock_move demoOutboundMove demoFive) 1 0 = 9 ∧
    isOkE (reverse_stock_move demoInboundMove emptyState) = false := by
  have h := outbound_reversal_unchecked demoFive demoOutboundMove 0 rfl rfl
  refine ⟨rfl, rfl, ?_, h.2.1⟩
  rw [h.1]
  simp only [finalLevels]
  decide

/-- C3: for every successfully applied single movement on a ledger whose
balances are all non-negative, immediately reversing the returned
MovementEvent succeeds, restores every touched balance to its exact
pre-application value, and removes the MovementEvent record, leaving the
event history and batch history exactly as before. -/
theorem apply_reverse_single_roundtrip (ty : MoveType) (p : Nat) (q : ℚ)
    (fl tl : Option Nat) (ts : Int) (s : LedgerState) (mv : StockMove)
    (s1 : LedgerState) (hnn : ∀ p2 l2, 0 ≤ s.levels p2 l2)
    (h : apply_stock_move ty p q fl tl ts s = .ok (mv, s1)) :
    ∃ s2, reverse_stock_move mv s1 = .ok s2 ∧
      (∀ p2 l2, s2.levels p2 l2 = s.levels p2 l2) ∧
      s2.moves = s.moves ∧ s2.batches = s.batches := by
  cases ty with
  | INBOUND =>
    simp only [apply_stock_move] at h
    split at h
    · simp at h
    · cases tl with
      | none => simp at h
      | some dst =>
        simp only [Except.ok.injEq, Prod.mk.injEq] at h
        obtain ⟨hmv, hs1⟩ := h
        subst hmv
        subst hs1
        cases hr : reverse_stock_move
            (⟨.INBOUND, p, q, fl, some dst, ts⟩ : StockMove)
            { s with
              levels := updateLevel s.levels p dst (s.levels p dst + q)
              moves := ⟨.INBOUND, p, q, fl, some dst, ts⟩ :: s.moves } with
        | error e =>
          exfalso
          simp only [reverse_stock_move] at hr
          split at hr
          · rename_i hlt
            rw [updateLevel_self] at hlt
            have := hnn p dst
            linarith
          · simp at hr
        | ok s2 =>
          simp only [reverse_stock_move] at hr
          split at hr
          · rename_i hlt
            rw [updateLevel_self] at hlt
            have := hnn p dst
            linarith
          · simp only [Except.ok.injEq] at hr
            subst hr
            refine ⟨_, rfl, ?_, ?_, ?_⟩
            · intro p2 l2
              by_cases h1 : p2 = p ∧ l2 = dst
              · obtain ⟨rfl, rfl⟩ := h1
                simp [updateLevel]
              · simp [updateLevel, h1]
            · simp [removeFirst]
            · rfl
  | OUTBOUND =>
    simp only [apply_stock_move] at h
    split at h
    · simp at h
    · split at h
      · simp at h
      · rename_i src
        split at h
        · simp at h
        · simp only [Except.ok.injEq, Prod.mk.injEq] at h
          obtain ⟨hmv, hs1⟩ := h
          subst hmv
          subst hs1
          cases hr : reverse_stock_move
              (⟨.OUTBOUND, p, q, some src, tl, ts⟩ : StockMove)
              { s with
                levels := updateLevel s.levels p src (s.levels p src - q)
                moves := ⟨.OUTBOUND, p, q, some src, tl, ts⟩ :: s.moves } with
          | error e =>
            exfalso
            simp only [reverse_stock_move] at hr
            simp at hr
          | ok s2 =>
            simp only [reverse_stock_move, Except.ok.injEq] at hr
            subst hr
            refine ⟨_, rfl, ?_, ?_, ?_⟩
            · intro p2 l2
              by_cases h1 : p2 = p ∧ l2 = src
              · obtain ⟨rfl, rfl⟩ := h1
                simp [updateLevel]
              · simp [updateLevel, h1]
            · simp [removeFirst]
            · rfl
  | TRANSFER =>
    simp only [apply_stock_move] at h
    split at h
    · simp at h
    · split at h
      · rename_i src dst
        split at h
        · simp at h
        · rename_i hsd
          split at h
          · simp at h
          · simp only [Except.ok.injEq, Prod.mk.injEq] at h
            obtain ⟨hmv, hs1⟩ := h
            subst hmv
            subst hs1
            have hds : ¬ (dst = src) := fun hh => hsd hh.symm
            have hpds : ¬ (p = p ∧ dst = src) := fun hh => hds hh.2
            cases hr : reverse_stock_move
                (⟨.TRANSFER, p, q, some src, some dst, ts⟩ : StockMove)
                { s with
                  levels := updateLevel
                      (updateLevel s.levels p src (s.levels p src - q)) p dst
                      (updateLevel s.levels p src (s.levels p src - q) p dst
                        + q)
                  moves := ⟨.TRANSFER, p, q, some src, some dst, ts⟩ ::
                    s.moves } with
            | error e =>
              exfalso
              simp only [reverse_stock_move] at hr
              split at hr
              · rename_i hlt
                rw [updateLevel_self, updateLevel_other _ _ _ _ _ _ hpds]
                  at hlt
                have := hnn p dst
                linarith
              · simp at hr
            | ok s2 =>
              simp only [reverse_stock_move] at hr
              split at hr
              · rename_i hlt
                rw [updateLevel_self, updateLevel_other _ _ _ _ _ _ hpds]
                  at hlt
                have := hnn p dst
                linarith
              · simp only [Except.ok.injEq] at hr
                subst hr
                refine ⟨_, rfl, ?_, ?_, ?_⟩
                · intro p2 l2
                  by_cases h1 : p2 = p ∧ l2 = dst
                  · obtain ⟨rfl, rfl⟩ := h1
                    simp [updateLevel, hds]
                  · by_cases h2 : p2 = p ∧ l2 = src
                    · obtain ⟨rfl, rfl⟩ := h2
                      simp [updateLevel, hsd]
                    · simp [updateLevel, h1, h2]
                · simp [removeFirst]
                · rfl
      · simp at h

/-- Witness for C3: INBOUND 5 of product 1 into location 0 on the empty
ledger, then reversing the returned move, restores the balance to 0. -/
theorem apply_reverse_single_roundtrip_witness :
    isOkE (applyThenReverseSingle .INBOUND 1 5 none (some 0) 0 emptyState)
      = true ∧
    finalLevels (applyThenReverseSingle .INBOUND 1 5 none (some 0) 0
      emptyState) 1 0 = 0 := by
  cases hap : apply_stock_move .INBOUND 1 5 none (some 0) 0 emptyState with
  | error e =>
    have hok : isOkE (apply_stock_move .INBOUND 1 5 none (some 0) 0
        emptyState) = true := by decide
    rw [hap] at hok
    simp [isOkE] at hok
  | ok r =>
    obtain ⟨mv, s1⟩ := r
    obtain ⟨s2, hrev, hlv, hmvs, hbt⟩ :=
      apply_reverse_single_roundtrip .INBOUND 1 5 none (some 0) 0 emptyState
        mv s1 (fun p2 l2 => le_refl 0) hap
    constructor
    · simp only [applyThenReverseSingle, hap, hrev, isOkE]
    · simp only [applyThenReverseSingle, hap, hrev, finalLevels]
      rw [hlv 1 0]
      rfl

theorem checkFeasible_error (totals : List (Nat × ℚ)) (lv : Nat → Nat → ℚ)
    (src pid : Nat) (q : ℚ) (hmem : (pid, q) ∈ totals)
    (hlt : lv pid src < q) :
    ∃ msg, checkFeasible totals lv src = .error msg := by
  induction totals with
  | nil => cases hmem
  | cons e rest ih =>
    obtain ⟨a, b⟩ := e
    by_cases hab : lv a src < b
    · exact ⟨"Insufficient stock at source for product id=" ++ toString a
        ++ ".", by simp [checkFeasible, hab]⟩
    · rcases List.mem_cons.mp hmem with hhd | htl
      · exfalso
        obtain ⟨rfl, rfl⟩ := Prod.mk.injEq .. ▸ hhd
        exact hab hlt
      · obtain ⟨msg, hmsg⟩ := ih htl
        exact ⟨msg, by simp [checkFeasible, hab, hmsg]⟩

/-- C4: for an OUTBOUND or TRANSFER batch, if any one consolidated
product's source balance is strictly below that product's consolidated
quantity, the whole request returns an error: the aborted transaction
mutates no balance and records no BatchEvent or BatchLine (no state is
produced on the error path). -/
theorem batch_all_or_nothing (ty : MoveType) (fromL toL : Option Nat)
    (ts : Int) (lines : List BatchLine) (s : LedgerState) (src pid : Nat)
    (q : ℚ) (totals : List (Nat × ℚ))
    (hty : ty = .OUTBOUND ∨ ty = .TRANSFER)
    (hfrom : fromL = some src)
    (hgroup : group_lines_by_product lines = .ok totals)
    (hmem : (pid, q) ∈ totals)
    (hlt : s.levels pid src < q) :
    ∃ msg, apply_stock_batch_move ty fromL toL ts lines s = .error msg := by
  subst hfrom
  have hnil : lines ≠ [] := by
    rintro rfl
    simp [group_lines_by_product, groupLines] at hgroup
    subst hgroup
    cases hmem
  obtain ⟨msg, hchk⟩ := checkFeasible_error totals s.levels src pid q hmem hlt
  rcases hty with rfl | rfl
  · refine ⟨msg, ?_⟩
    simp [apply_stock_batch_move, hnil, hgroup, hchk]
  · cases toL with
    | none =>
      exact ⟨"TRANSFER requires both source and destination.",
        by simp [apply_stock_batch_move]⟩
    | some dst =>
      by_cases hsd : src = dst
      · exact ⟨"Source and destination locations must differ.",
        by simp [apply_stock_batch_move, hsd]⟩
      · refine ⟨msg, ?_⟩
        simp [apply_stock_batch_move, hsd, hnil, hgroup, hchk]

/-- Witness for C4 at the spec scenario: lines [product 1: 5 (feasible),
product 2: 1000 (infeasible)] against 10-and-5 on hand fail as a whole. -/
theorem batch_all_or_nothing_witness :
    demoTwoProducts.levels 2 0 < 1000 ∧
    isOkE (apply_stock_batch_move .OUTBOUND (some 0) none 0
      demoInfeasibleLines demoTwoProducts) = false := by
  refine ⟨by decide, ?_⟩
  obtain ⟨msg, hmsg⟩ := batch_all_or_nothing .OUTBOUND (some 0) none 0
    demoInfeasibleLines demoTwoProducts 0 2 1000 [(1, 5), (2, 1000)]
    (Or.inl rfl) rfl rfl (by decide) (by decide)
  rw [hmsg]
  rfl

/-- C1 (code-bug evidence): applying the INBOUND batch
[(product 1, qty 5), (product 2, qty 3)] into location 0 on the empty
ledger puts 5 and 3 on hand; reversing that batch succeeds and deletes it,
but both inverse deltas land on product 1's balance — the reversal
resolves every consolidated product's level row through the batch's first
line's product — leaving (1, 0) at -3 and (2, 0) at 3 instead of
restoring both to their pre-application value 0. -/
theorem batch_reversal_hits_first_product_only :
    batchResultLevels demoBugApplied 1 0 = 5 ∧
    batchResultLevels demoBugApplied 2 0 = 3 ∧
    isOkE demoBugReversed = true ∧
    finalLevels demoBugReversed 1 0 = -3 ∧
    finalLevels demoBugReversed 2 0 = 3 ∧
    emptyState.levels 1 0 = 0 ∧ emptyState.levels 2 0 = 0 := by
  refine ⟨by decide, by decide, by decide, by decide, by decide, rfl, rfl⟩

/-- C2 (code-bug evidence): starting from the all-zero (all-non-negative)
ledger, the successful operation sequence "apply INBOUND batch
[(1,5),(2,3)] at location 0, then reverse it" reaches a state with
on_hand(product 1, location 0) = -3 < 0, violating the claimed
non-negativity invariant. -/
theorem negative_on_hand_reachable :
    (∀ p l, 0 ≤ emptyState.levels p l) ∧
    finalLevels demoBugReversed 1 0 < 0 := by
  exact ⟨fun p l => le_refl 0, by decide⟩

/-- C9: every emitted reorder suggestion row carries
avg daily demand = round2(total outbound in window / W),
target = round2(avg × C), and suggested = target − total on-hand, with
two-decimal half-even rounding applied at each intermediate step (round2
of the final difference is a further display quantization). -/
theorem reorder_rounds_each_step (pid : Nat) (total_out on_hand : ℚ)
    (days coverage_days : Int) (min_qty : ℚ) (row : SuggestionRow)
    (hdays : 0 < days)
    (h : reorderSuggestionRow pid total_out on_hand days coverage_days
      min_qty = some row) :
    row.avg_daily_demand = round2 (total_out / (days : ℚ)) ∧
    row.suggested_qty =
      round2 (round2 (round2 (total_out / (days : ℚ)) * (coverage_days : ℚ))
        - on_hand) ∧
    row.on_hand_total = round2 on_hand ∧
    row.window_days = days ∧ row.product = pid := by
  simp only [reorderSuggestionRow] at h
  rw [if_neg (not_le.mpr hdays)] at h
  split at h
  · simp at h
  · split at h
    · simp at h
    · simp only [Option.some.injEq] at h
      subst h
      exact ⟨rfl, rfl, rfl, rfl, rfl⟩

/-- Witness for C9 at the spec scenario: 140 outbound units inside the
14-day window (90 from a single move plus 50 from a batch line; a move
outside the window and an inbound move are excluded), coverage 7, on-hand
10: avg 10.00, suggested 60.00. -/
theorem reorder_rounds_each_step_witness :
    outbound_total 1 0 demoAdvisorMoves demoAdvisorBatches = 140 ∧
    reorderSuggestionRow 1 140 10 14 7 0 = some demoRow ∧
    demoRow.avg_daily_demand = round2 (140 / (14 : ℚ)) ∧
    demoRow.suggested_qty =
      round2 (round2 (round2 (140 / (14 : ℚ)) * ((7 : Int) : ℚ)) - 10) ∧
    demoRow.avg_daily_demand = 10 ∧ demoRow.suggested_qty = 60 := by
  have h := reorder_rounds_each_step 1 140 10 14 7 0 demoRow (by norm_num)
    (by decide)
  exact ⟨by decide, by decide, h.1, h.2.1, by decide, by decide⟩

theorem addLine_keys (acc : List (Nat × ℚ)) (pid : Nat) (q : ℚ) :
    (addLine acc pid q).map Prod.fst =
      if pid ∈ acc.map Prod.fst then acc.map Prod.fst
      else acc.map Prod.fst ++ [pid] := by
  induction acc with
  | nil => simp [addLine]
  | cons e rest ih =>
    obtain ⟨a, b⟩ := e
    by_cases hap : a = pid
    · subst hap
      simp [addLine]
    · by_cases hmem : pid ∈ rest.map Prod.fst
      · simp [addLine, hap, ih, hmem, Ne.symm hap]
      · simp [addLine, hap, ih, hmem, Ne.symm hap]

theorem addLine_pairSum (acc : List (Nat × ℚ)) (pid x : Nat) (q : ℚ) :
    pairSum x (addLine acc pid q) =
      pairSum x acc + (if pid = x then q else 0) := by
  induction acc with
  | nil => simp [addLine, pairSum]
  | cons e rest ih =>
    obtain ⟨a, b⟩ := e
    by_cases hap : a = pid
    · subst hap
      by_cases hax : a = x
      · subst hax
        simp [addLine, pairSum]
        ring
      · simp [addLine, pairSum, hax]
    · simp [addLine, pairSum, hap, ih]
      ring

theorem addLine_pos (pid : Nat) (q : ℚ) (hq : 0 < q) :
    ∀ acc : List (Nat × ℚ), (∀ e ∈ acc, 0 < e.2) →
      ∀ e ∈ addLine acc pid q, 0 < e.2 := by
  intro acc
  induction acc with
  | nil =>
    intro _ e he
    simp [addLine] at he
    subst he
    exact hq
  | cons e0 rest ih =>
    obtain ⟨a, b⟩ := e0
    intro hacc e he
    by_cases hap : a = pid
    · subst hap
      simp [addLine] at he
      rcases he with rfl | he
      · have hb := hacc (a, b) (by simp)
        have : (0:ℚ) < b := hb
        simpa using add_pos this hq
      · exact hacc e (by simp [he])
    · simp [addLine, hap] at he
      rcases he with rfl | he
      · exact hacc (a, b) (by simp)
      · exact ih (fun e2 he2 => hacc e2 (by simp [he2])) e he

theorem addLine_ne_nil (acc : List (Nat × ℚ)) (pid : Nat) (q : ℚ) :
    addLine acc pid q ≠ [] := by
  cases acc with
  | nil => simp [addLine]
  | cons e rest =>
    obtain ⟨a, b⟩ := e
    by_cases h : a = pid <;> simp [addLine, h]

theorem addLine_not_mem (acc : List (Nat × ℚ)) (pid : Nat) (q : ℚ)
    (h : pid ∉ acc.map Prod.fst) :
    addLine acc pid q = acc ++ [(pid, q)] := by
  induction acc with
  | nil => simp [addLine]
  | cons e rest ih =>
    obtain ⟨a, b⟩ := e
    simp only [List.map_cons, List.mem_cons] at h
    push_neg at h
    obtain ⟨hne, hrest⟩ := h
    simp [addLine, Ne.symm hne, ih hrest]

theorem groupLines_pairSum (ls : List BatchLine) :
    ∀ acc totals, groupLines ls acc = .ok totals →
      ∀ x, pairSum x totals = pairSum x acc + sumQtyFor x ls := by
  induction ls with
  | nil =>
    intro acc totals h x
    simp [groupLines] at h
    subst h
    simp [sumQtyFor]
  | cons ln rest ih =>
    intro acc totals h x
    simp only [groupLines] at h
    split at h
    · simp at h
    · rw [ih _ _ h x, addLine_pairSum]
      simp [sumQtyFor]
      ring

theorem groupLines_keys_nodup (ls : List BatchLine) :
    ∀ acc totals, groupLines ls acc = .ok totals →
      (acc.map Prod.fst).Nodup → (totals.map Prod.fst).Nodup := by
  induction ls with
  | nil =>
    intro acc totals h hnd
    simp [groupLines] at h
    subst h
    exact hnd
  | cons ln rest ih =>
    intro acc totals h hnd
    simp only [groupLines] at h
    split at h
    · simp at h
    · refine ih _ _ h ?_
      rw [addLine_keys]
      split
      · exact hnd
      · rename_i hmem
        exact hnd.append (List.nodup_singleton _)
          (by simpa [List.disjoint_singleton] using hmem)

theorem groupLines_mem_keys (ls : List BatchLine) :
    ∀ acc totals, groupLines ls acc = .ok totals → ∀ x,
      x ∈ totals.map Prod.fst ↔
        x ∈ acc.map Prod.fst ∨ x ∈ ls.map BatchLine.product := by
  induction ls with
  | nil =>
    intro acc totals h x
    simp [groupLines] at h
    subst h
    simp
  | cons ln rest ih =>
    intro acc totals h x
    simp only [groupLines] at h
    split at h
    · simp at h
    · rw [ih _ _ h x, addLine_keys]
      split
      · rename_i hmem
        simp only [List.map_cons, List.mem_cons]
        constructor
        · rintro (h1 | h2)
          exacts [Or.inl h1, Or.inr (Or.inr h2)]
        · rintro (h1 | rfl | h2)
          exacts [Or.inl h1, Or.inl hmem, Or.inr h2]
      · rename_i hmem
        simp only [List.mem_append, List.mem_singleton, List.map_cons,
          List.mem_cons]
        tauto

theorem groupLines_pos (ls : List BatchLine) :
    ∀ acc totals, groupLines ls acc = .ok totals →
      (∀ e ∈ acc, 0 < e.2) → ∀ e ∈ totals, 0 < e.2 := by
  induction ls with
  | nil =>
    intro acc totals h hacc
    simp [groupLines] at h
    subst h
    exact hacc
  | cons ln rest ih =>
    intro acc totals h hacc
    simp only [groupLines] at h
    split at h
    · simp at h
    · rename_i hq
      exact ih _ _ h (addLine_pos ln.product ln.qty (not_le.mp hq) acc hacc)

theorem groupLines_result_ne_nil (ls : List BatchLine) :
    ∀ acc totals, groupLines ls acc = .ok totals →
      (acc ≠ [] ∨ ls ≠ []) → totals ≠ [] := by
  induction ls with
  | nil =>
    intro acc totals h hne
    simp [groupLines] at h
    subst h
    rcases hne with h1 | h2
    · exact h1
    · exact absurd rfl h2
  | cons ln rest ih =>
    intro acc totals h _
    simp only [groupLines] at h
    split at h
    · simp at h
    · exact ih _ _ h (Or.inl (addLine_ne_nil _ _ _))

theorem groupLines_map_self : ∀ (totals acc : List (Nat × ℚ)),
    ((acc ++ totals).map Prod.fst).Nodup → (∀ e ∈ totals, 0 < e.2) →
    groupLines (totals.map fun e => BatchLine.mk e.1 e.2) acc =
      .ok (acc ++ totals) := by
  intro totals
  induction totals with
  | nil =>
    intro acc hnd hpos
    simp [groupLines]
  | cons e rest ih =>
    intro acc hnd hpos
    obtain ⟨a, b⟩ := e
    have hb : (0:ℚ) < b := hpos (a, b) (by simp)
    simp only [List.map_cons, groupLines]
    rw [if_neg (not_le.mpr hb)]
    have hnotin : a ∉ acc.map Prod.fst := by
      intro hmem
      rw [List.map_append, List.nodup_append] at hnd
      exact hnd.2.2 hmem (by simp)
    rw [addLine_not_mem _ _ _ hnotin,
      show acc ++ (a, b) :: rest = (acc ++ [(a, b)]) ++ rest by simp]
    exact ih (acc ++ [(a, b)]) (by simpa using hnd)
      (fun e2 he2 => hpos e2 (by simp [he2]))

theorem map_product_mk (totals : List (Nat × ℚ)) :
    (totals.map fun e => BatchLine.mk e.1 e.2).map BatchLine.product =
      totals.map Prod.fst := by
  induction totals with
  | nil => rfl
  | cons e rest ih => simp [ih]

theorem sumQtyFor_map (x : Nat) (totals : List (Nat × ℚ)) :
    sumQtyFor x (totals.map fun e => BatchLine.mk e.1 e.2) =
      pairSum x totals := by
  induction totals with
  | nil => simp [sumQtyFor, pairSum]
  | cons e rest ih =>
    obtain ⟨a, b⟩ := e
    simp [sumQtyFor, pairSum, ih]

/-- C5: for every batch request whose line list mentions some product more
than once, quantities are summed per product before any storage is
touched: the created BatchEvent holds exactly one BatchLine per distinct
product (no duplicate products), covering exactly the products of the
request, each carrying the summed quantity; and re-submitting the
consolidated one-line-per-product list produces the identical balance
effect. -/
theorem batch_consolidation (ty : MoveType) (fromL toL : Option Nat)
    (ts : Int) (lines : List BatchLine) (s : LedgerState)
    (batch : StockMoveBatch) (s1 : LedgerState)
    (hdup : ¬ (lines.map BatchLine.product).Nodup)
    (h : apply_stock_batch_move ty fromL toL ts lines s = .ok (batch, s1)) :
    (batch.lines.map BatchLine.product).Nodup ∧
    (∀ x, x ∈ batch.lines.map BatchLine.product ↔
      x ∈ lines.map BatchLine.product) ∧
    (∀ x, sumQtyFor x batch.lines = sumQtyFor x lines) ∧
    ∃ batch2 s2,
      apply_stock_batch_move ty fromL toL ts batch.lines s =
        .ok (batch2, s2) ∧
      batch2.lines = batch.lines ∧
      (∀ p2 l2, s2.levels p2 l2 = s1.levels p2 l2) := by
  cases ty with
  | INBOUND =>
    simp only [apply_stock_batch_move] at h
    split at h
    · simp at h
    · rename_i dst
      split at h
      · simp at h
      · rename_i hlines
        split at h
        · simp at h
        · rename_i totals hgrp
          simp only [Except.ok.injEq, Prod.mk.injEq] at h
          obtain ⟨hb, hs1⟩ := h
          subst hb
          subst hs1
          have hnd : (totals.map Prod.fst).Nodup :=
            groupLines_keys_nodup lines [] totals hgrp (by simp)
          have hpos : ∀ e ∈ totals, 0 < e.2 :=
            groupLines_pos lines [] totals hgrp (by simp)
          have hne : totals ≠ [] :=
            groupLines_result_ne_nil lines [] totals hgrp (Or.inr hlines)
          have hgrp2 : group_lines_by_product
              (totals.map fun e => BatchLine.mk e.1 e.2) = .ok totals := by
            simpa [group_lines_by_product] using
              groupLines_map_self totals [] (by simpa using hnd) hpos
          refine ⟨?_, ?_, ?_, ?_⟩
          · rw [map_product_mk]
            exact hnd
          · intro x
            rw [map_product_mk]
            have := groupLines_mem_keys lines [] totals hgrp x
            simpa using this
          · intro x
            rw [sumQtyFor_map]
            have := groupLines_pairSum lines [] totals hgrp x
            simpa [pairSum] using this
          · refine ⟨_, _, ?_, rfl, fun p2 l2 => rfl⟩
            simp only [apply_stock_batch_move]
            rw [if_neg (by simpa using hne), hgrp2]
  | OUTBOUND =>
    simp only [apply_stock_batch_move] at h
    split at h
    · simp at h
    · rename_i src
      split at h
      · simp at h
      · rename_i hlines
        split at h
        · simp at h
        · rename_i totals hgrp
          split at h
          · simp at h
          · rename_i u hchk
            simp only [Except.ok.injEq, Prod.mk.injEq] at h
            obtain ⟨hb, hs1⟩ := h
            subst hb
            subst hs1
            have hnd : (totals.map Prod.fst).Nodup :=
              groupLines_keys_nodup lines [] totals hgrp (by simp)
            have hpos : ∀ e ∈ totals, 0 < e.2 :=
              groupLines_pos lines [] totals hgrp (by simp)
            have hne : totals ≠ [] :=
              groupLines_result_ne_nil lines [] totals hgrp (Or.inr hlines)
            have hgrp2 : group_lines_by_product
                (totals.map fun e => BatchLine.mk e.1 e.2) = .ok totals := by
              simpa [group_lines_by_product] using
                groupLines_map_self totals [] (by simpa using hnd) hpos
            refine ⟨?_, ?_, ?_, ?_⟩
            · rw [map_product_mk]
              exact hnd
            · intro x
              rw [map_product_mk]
              have := groupLines_mem_keys lines [] totals hgrp x
              simpa using this
            · intro x
              rw [sumQtyFor_map]
              have := groupLines_pairSum lines [] totals hgrp x
              simpa [pairSum] using this
            · refine ⟨_, _, ?_, rfl, fun p2 l2 => rfl⟩
              simp only [apply_stock_batch_move]
              rw [if_neg (by simpa using hne), hgrp2]
              simp only [hchk]
  | TRANSFER =>
    simp only [apply_stock_batch_move] at h
    split at h
    · rename_i src dst
      split at h
      · simp at h
      · rename_i hsd
        split at h
        · simp at h
        · rename_i hlines
          split at h
          · simp at h
          · rename_i totals hgrp
            split at h
            · simp at h
            · rename_i u hchk
              simp only [Except.ok.injEq, Prod.mk.injEq] at h
              obtain ⟨hb, hs1⟩ := h
              subst hb
              subst hs1
              have hnd : (totals.map Prod.fst).Nodup :=
                groupLines_keys_nodup lines [] totals hgrp (by simp)
              have hpos : ∀ e ∈ totals, 0 < e.2 :=
                groupLines_pos lines [] totals hgrp (by simp)
              have hne : totals ≠ [] :=
                groupLines_result_ne_nil lines [] totals hgrp (Or.inr hlines)
              have hgrp2 : group_lines_by_product
                  (totals.map fun e => BatchLine.mk e.1 e.2) = .ok totals := by
                simpa [group_lines_by_product] using
                  groupLines_map_self totals [] (by simpa using hnd) hpos
              refine ⟨?_, ?_, ?_, ?_⟩
              · rw [map_product_mk]
                exact hnd
              · intro x
                rw [map_product_mk]
                have := groupLines_mem_keys lines [] totals hgrp x
                simpa using this
              · intro x
                rw [sumQtyFor_map]
                have := groupLines_pairSum lines [] totals hgrp x
                simpa [pairSum] using this
              · refine ⟨_, _, ?_, rfl, fun p2 l2 => rfl⟩
                simp only [apply_stock_batch_move]
                rw [if_neg hsd, if_neg (by simpa using hne), hgrp2]
                simp only [hchk]
    · simp at h

/-- Witness for C5 at the spec scenario: an INBOUND batch with two lines
for product 1 of quantities 3 and 4 creates exactly one BatchLine of
quantity 7 and puts 7 on hand. -/
theorem batch_consolidation_witness :
    ¬ ((demoDupLines.map BatchLine.product).Nodup) ∧
    batchLinesOf (apply_stock_batch_move .INBOUND none (some 0) 0
      demoDupLines emptyState) = [⟨1, 7⟩] ∧
    batchResultLevels (apply_stock_batch_move .INBOUND none (some 0) 0
      demoDupLines emptyState) 1 0 = 7 ∧
    sumQtyFor 1 [(⟨1, 7⟩ : BatchLine)] = sumQtyFor 1 demoDupLines := by
  cases hap : apply_stock_batch_move .INBOUND none (some 0) 0 demoDupLines
      emptyState with
  | error e =>
    have hok : isOkE (apply_stock_batch_move .INBOUND none (some 0) 0
        demoDupLines emptyState) = true := by decide
    rw [hap] at hok
    simp [isOkE] at hok
  | ok r =>
    obtain ⟨batch, s1⟩ := r
    have h5 := batch_consolidation .INBOUND none (some 0) 0 demoDupLines
      emptyState batch s1 (by decide) hap
    have hbl : batch.lines = [⟨1, 7⟩] := by
      have hb : batchLinesOf (apply_stock_batch_move .INBOUND none (some 0) 0
          demoDupLines emptyState) = [⟨1, 7⟩] := by decide
      rw [hap] at hb
      simpa [batchLinesOf] using hb
    refine ⟨by decide, ?_, ?_, ?_⟩
    · simp [batchLinesOf, hap, hbl]
    · have hb2 : batchResultLevels (apply_stock_batch_move .INBOUND none
          (some 0) 0 demoDupLines emptyState) 1 0 = 7 := by decide
      rw [hap] at hb2
      exact hb2
    · rw [← hbl]
      exact h5.2.2.1 1

theorem sum_updateLevel (L : Finset Nat) (lv : Nat → Nat → ℚ) (p0 l0 : Nat)
    (v : ℚ) (pr : Nat) (hl : l0 ∈ L) :
    ∑ l ∈ L, updateLevel lv p0 l0 v pr l =
      ∑ l ∈ L, lv pr l + (if pr = p0 then v - lv pr l0 else 0) := by
  rw [← Finset.add_sum_erase L (fun l => updateLevel lv p0 l0 v pr l) hl,
    ← Finset.add_sum_erase L (fun l => lv pr l) hl]
  have herase : ∑ l ∈ L.erase l0, updateLevel lv p0 l0 v pr l =
      ∑ l ∈ L.erase l0, lv pr l :=
    Finset.sum_congr rfl (fun x hx =>
      updateLevel_other _ _ _ _ _ _ (fun hc => Finset.ne_of_mem_erase hx hc.2))
  rw [herase]
  by_cases hp : pr = p0
  · subst hp
    rw [updateLevel_self]
    simp
    ring
  · rw [updateLevel_other _ _ _ _ _ _ (fun hc => hp hc.1)]
    simp [hp]

theorem sum_applyTotalsAdd (totals : List (Nat × ℚ)) :
    ∀ (lv : Nat → Nat → ℚ) (dst : Nat) (L : Finset Nat) (pr : Nat),
      dst ∈ L →
      ∑ l ∈ L, applyTotalsAdd totals lv dst pr l =
        ∑ l ∈ L, lv pr l + pairSum pr totals := by
  induction totals with
  | nil =>
    intro lv dst L pr hd
    simp [applyTotalsAdd, pairSum]
  | cons e rest ih =>
    intro lv dst L pr hd
    obtain ⟨pid, q⟩ := e
    simp only [applyTotalsAdd]
    rw [ih _ dst L pr hd, sum_updateLevel L lv pid dst _ pr hd]
    simp only [pairSum]
    by_cases hp : pr = pid
    · subst hp
      simp
      ring
    · simp [hp, Ne.symm hp]

theorem sum_applyTotalsSub (totals : List (Nat × ℚ)) :
    ∀ (lv : Nat → Nat → ℚ) (src : Nat) (L : Finset Nat) (pr : Nat),
      src ∈ L →
      ∑ l ∈ L, applyTotalsSub totals lv src pr l =
        ∑ l ∈ L, lv pr l - pairSum pr totals := by
  induction totals with
  | nil =>
    intro lv src L pr hs
    simp [applyTotalsSub, pairSum]
  | cons e rest ih =>
    intro lv src L pr hs
    obtain ⟨pid, q⟩ := e
    simp only [applyTotalsSub]
    rw [ih _ src L pr hs, sum_updateLevel L lv pid src _ pr hs]
    simp only [pairSum]
    by_cases hp : pr = pid
    · subst hp
      simp
      ring
    · simp [hp, Ne.symm hp]

theorem sum_applyTotalsTransfer (totals : List (Nat × ℚ)) :
    ∀ (lv : Nat → Nat → ℚ) (src dst : Nat) (L : Finset Nat) (pr : Nat),
      src ∈ L → dst ∈ L →
      ∑ l ∈ L, applyTotalsTransfer totals lv src dst pr l =
        ∑ l ∈ L, lv pr l := by
  induction totals with
  | nil =>
    intro lv src dst L pr hs hd
    simp [applyTotalsTransfer]
  | cons e rest ih =>
    intro lv src dst L pr hs hd
    obtain ⟨pid, q⟩ := e
    simp only [applyTotalsTransfer]
    rw [ih _ src dst L pr hs hd,
      sum_updateLevel L (updateLevel lv pid src (lv pid src - q)) pid dst _
        pr hd,
      sum_updateLevel L lv pid src _ pr hs]
    by_cases hp : pr = pid
    · subst hp
      simp
    · simp [hp]

theorem sum_apply_stock_move (ty : MoveType) (p : Nat) (q : ℚ)
    (fl tl : Option Nat) (ts : Int) (s : LedgerState) (mv : StockMove)
    (s1 : LedgerState) (L : Finset Nat) (pr : Nat)
    (hfl : ∀ x, fl = some x → x ∈ L) (htl : ∀ x, tl = some x → x ∈ L)
    (h : apply_stock_move ty p q fl tl ts s = .ok (mv, s1)) :
    ∑ l ∈ L, s1.levels pr l =
      ∑ l ∈ L, s.levels pr l +
        ((if ty = .INBOUND ∧ p = pr then q else 0) -
         (if ty = .OUTBOUND ∧ p = pr then q else 0)) := by
  cases ty with
  | INBOUND =>
    simp only [apply_stock_move] at h
    split at h
    · simp at h
    · split at h
      · simp at h
      · rename_i dst
        simp only [Except.ok.injEq, Prod.mk.injEq] at h
        obtain ⟨hmv, hs1⟩ := h
        subst hs1
        rw [show ({ s with
            levels := updateLevel s.levels p dst (s.levels p dst + q)
            moves := ⟨.INBOUND, p, q, fl, some dst, ts⟩ ::
              s.moves } : LedgerState).levels =
          updateLevel s.levels p dst (s.levels p dst + q) from rfl]
        rw [sum_updateLevel L s.levels p dst _ pr (htl dst rfl)]
        by_cases hp : pr = p
        · subst hp
          simp
        · have hp2 : ¬ p = pr := fun hh => hp hh.symm
          simp [hp, hp2]
  | OUTBOUND =>
    simp only [apply_stock_move] at h
    split at h
    · simp at h
    · split at h
      · simp at h
      · rename_i src
        split at h
        · simp at h
        · simp only [Except.ok.injEq, Prod.mk.injEq] at h
          obtain ⟨hmv, hs1⟩ := h
          subst hs1
          rw [show ({ s with
              levels := updateLevel s.levels p src (s.levels p src - q)
              moves := ⟨.OUTBOUND, p, q, some src, tl, ts⟩ ::
                s.moves } : LedgerState).levels =
            updateLevel s.levels p src (s.levels p src - q) from rfl]
          rw [sum_updateLevel L s.levels p src _ pr (hfl src rfl)]
          by_cases hp : pr = p
          · subst hp
            simp
          · have hp2 : ¬ p = pr := fun hh => hp hh.symm
            simp [hp, hp2]
  | TRANSFER =>
    simp only [apply_stock_move] at h
    split at h
    · simp at h
    · split at h
      · rename_i src dst
        split at h
        · simp at h
        · split at h
          · simp at h
          · simp only [Except.ok.injEq, Prod.mk.injEq] at h
            obtain ⟨hmv, hs1⟩ := h
            subst hs1
            rw [show ({ s with
                levels := updateLevel
                    (updateLevel s.levels p src (s.levels p src - q)) p dst
                    (updateLevel s.levels p src (s.levels p src - q) p dst
                      + q)
                moves := ⟨.TRANSFER, p, q, some src, some dst, ts⟩ ::
                  s.moves } : LedgerState).levels =
              updateLevel
                  (updateLevel s.levels p src (s.levels p src - q)) p dst
                  (updateLevel s.levels p src (s.levels p src - q) p dst + q)
                from rfl]
            rw [sum_updateLevel L
                (updateLevel s.levels p src (s.levels p src - q)) p dst _ pr
                (htl dst rfl),
              sum_updateLevel L s.levels p src _ pr (hfl src rfl)]
            by_cases hp : pr = p
            · subst hp
              simp
            · simp [hp]
      · simp at h

theorem sum_apply_stock_batch_move (ty : MoveType) (fl tl : Option Nat)
    (ts : Int) (lines : List BatchLine) (s : LedgerState)
    (b : StockMoveBatch) (s1 : LedgerState) (L : Finset Nat) (pr : Nat)
    (hfl : ∀ x, fl = some x → x ∈ L) (htl : ∀ x, tl = some x → x ∈ L)
    (h : apply_stock_batch_move ty fl tl ts lines s = .ok (b, s1)) :
    ∑ l ∈ L, s1.levels pr l =
      ∑ l ∈ L, s.levels pr l +
        ((if ty = .INBOUND then sumQtyFor pr lines else 0) -
         (if ty = .OUTBOUND then sumQtyFor pr lines else 0)) := by
  cases ty with
  | INBOUND =>
    simp only [apply_stock_batch_move] at h
    split at h
    · simp at h
    · rename_i dst
      split at h
      · simp at h
      · split at h
        · simp at h
        · rename_i totals hgrp
          simp only [Except.ok.injEq, Prod.mk.injEq] at h
          obtain ⟨hb, hs1⟩ := h
          subst hs1
          have hps := groupLines_pairSum lines [] totals hgrp pr
          simp only [pairSum, zero_add] at hps
          rw [show ({ s with
              levels := applyTotalsAdd totals s.levels dst
              batches := ⟨.INBOUND, fl, some dst, ts,
                totals.map fun e => BatchLine.mk e.1 e.2⟩ ::
                s.batches } : LedgerState).levels =
            applyTotalsAdd totals s.levels dst from rfl]
          rw [sum_applyTotalsAdd totals s.levels dst L pr (htl dst rfl), hps]
          simp
  | OUTBOUND =>
    simp only [apply_stock_batch_move] at h
    split at h
    · simp at h
    · rename_i src
      split at h
      · simp at h
      · split at h
        · simp at h
        · rename_i totals hgrp
          split at h
          · simp at h
          · simp only [Except.ok.injEq, Prod.mk.injEq] at h
            obtain ⟨hb, hs1⟩ := h
            subst hs1
            have hps := groupLines_pairSum lines [] totals hgrp pr
            simp only [pairSum, zero_add] at hps
            rw [show ({ s with
                levels := applyTotalsSub totals s.levels src
                batches := ⟨.OUTBOUND, some src, tl, ts,
                  totals.map fun e => BatchLine.mk e.1 e.2⟩ ::
                  s.batches } : LedgerState).levels =
              applyTotalsSub totals s.levels src from rfl]
            rw [sum_applyTotalsSub totals s.levels src L pr (hfl src rfl),
              hps]
            simp
            ring
  | TRANSFER =>
    simp only [apply_stock_batch_move] at h
    split at h
    · rename_i src dst
      split at h
      · simp at h
      · split at h
        · simp at h
        · split at h
          · simp at h
          · rename_i totals hgrp
            split at h
            · simp at h
            · simp only [Except.ok.injEq, Prod.mk.injEq] at h
              obtain ⟨hb, hs1⟩ := h
              subst hs1
              rw [show ({ s with
                  levels := applyTotalsTransfer totals s.levels src dst
                  batches := ⟨.TRANSFER, some src, some dst, ts,
                    totals.map fun e => BatchLine.mk e.1 e.2⟩ ::
                    s.batches } : LedgerState).levels =
                applyTotalsTransfer totals s.levels src dst from rfl]
              rw [sum_applyTotalsTransfer totals s.levels src dst L pr
                (hfl src rfl) (htl dst rfl)]
              simp
    · simp at h

theorem sum_runOps (ops : List Op) :
    ∀ (s s1 : LedgerState) (L : Finset Nat) (pr : Nat),
      (∀ op ∈ ops, ∀ x ∈ opLocs op, x ∈ L) →
      runOps ops s = .ok s1 →
      ∑ l ∈ L, s1.levels pr l =
        ∑ l ∈ L, s.levels pr l +
          (inboundTotal pr ops - outboundTotal pr ops) := by
  induction ops with
  | nil =>
    intro s s1 L pr hL h
    simp [runOps] at h
    subst h
    simp [inboundTotal, outboundTotal]
  | cons op rest ih =>
    intro s s1 L pr hL h
    simp only [runOps] at h
    split at h
    · simp at h
    · rename_i s2 hop
      have hrest := ih s2 s1 L pr
        (fun o ho x hx => hL o (by simp [ho]) x hx) h
      have hLop : ∀ x ∈ opLocs op, x ∈ L := fun x hx => hL op (by simp) x hx
      have hstep : ∑ l ∈ L, s2.levels pr l =
          ∑ l ∈ L, s.levels pr l +
            (opInboundQty pr op - opOutboundQty pr op) := by
        clear hrest h hL ih
        cases op with
        | single ty p q fl tl ts2 =>
          simp only [runOp] at hop
          split at hop
          · simp at hop
          · rename_i mv s3 happ
            simp only [Except.ok.injEq] at hop
            subst hop
            have hsum := sum_apply_stock_move ty p q fl tl ts2 s mv s3 L pr
              (fun x hx => hLop x (by simp [opLocs, hx]))
              (fun x hx => hLop x (by simp [opLocs, hx]))
              happ
            simpa [opInboundQty, opOutboundQty] using hsum
        | batch ty fl tl ts2 lines2 =>
          simp only [runOp] at hop
          split at hop
          · simp at hop
          · rename_i b s3 happ
            simp only [Except.ok.injEq] at hop
            subst hop
            have hsum := sum_apply_stock_batch_move ty fl tl ts2 lines2 s b
              s3 L pr
              (fun x hx => hLop x (by simp [opLocs, hx]))
              (fun x hx => hLop x (by simp [opLocs, hx]))
              happ
            simpa [opInboundQty, opOutboundQty] using hsum
      rw [hrest, hstep]
      simp only [inboundTotal, outboundTotal]
      ring

/-- C6: starting from the empty ledger, after any successful sequence of
INBOUND/OUTBOUND/TRANSFER requests (single or batch, no reversals), for
every product the sum of on_hand over any location set covering the
locations the requests touch equals the total INBOUND quantity minus the
total OUTBOUND quantity applied for that product; TRANSFER contributes
nothing to this aggregate. -/
theorem product_conservation (ops : List Op) (s : LedgerState)
    (L : Finset Nat) (pr : Nat)
    (hL : ∀ op ∈ ops, ∀ x ∈ opLocs op, x ∈ L)
    (h : runOps ops emptyState = .ok s) :
    ∑ l ∈ L, s.levels pr l = inboundTotal pr ops - outboundTotal pr ops := by
  have := sum_runOps ops emptyState s L pr hL h
  simpa [emptyState] using this

/-- Witness for C6: INBOUND 5 at location 0, batch-TRANSFER 2 to location
1, OUTBOUND 2 from location 1, all of product 1: total on hand over
locations 0 and 1 is 3 = 5 - 2. -/
theorem product_conservation_witness :
    isOkE (runOps demoOps emptyState) = true ∧
    inboundTotal 1 demoOps - outboundTotal 1 demoOps = 3 ∧
    (∑ l ∈ ({0, 1} : Finset Nat),
      finalLevels (runOps demoOps emptyState) 1 l) = 3 := by
  refine ⟨by decide, by decide, ?_⟩
  cases hr : runOps demoOps emptyState with
  | error e =>
    have hok : isOkE (runOps demoOps emptyState) = true := by decide
    rw [hr] at hok
    simp [isOkE] at hok
  | ok s =>
    have hc := product_conservation demoOps s {0, 1} 1 (by decide) hr
    have h2 : inboundTotal 1 demoOps - outboundTotal 1 demoOps = 3 := by
      decide
    simp only [finalLevels]
    rw [hc, h2]
